import Mathlib

set_option linter.unnecessarySeqFocus false

/-!
Verification of the three-way merge engine in `src/merge.rs`.

The Rust code merges `serde_json::Value` trees.  A `serde_json` object is a
`Map<String, Value>` backed (with default features) by a `BTreeMap`, i.e. an
ordered map whose entries are strictly sorted by key and whose equality is
entry-wise equality of that sorted sequence.  We embed `Value` as an inductive
type whose `obj` constructor carries the association list of entries; the
`BTreeMap` representation invariant (keys strictly sorted, hence unique, at
every object node) is captured by the predicate `isCanonical` below, and
structural equality of canonical values coincides with Rust `==` on values.

The `path` argument of the Rust functions is used only to format log messages
and has no effect on the returned pair, so it is omitted from the embedding.
The `panic!` in `merge_entry`'s `(None, None, None)` arm is modelled by
returning `none` at the outer `Option` layer: `merge_entry` returns
`Option (Option Value × Bool)`, where the outer `none` is the panic and the
inner option is Rust's `Option<Value>` result.
-/

inductive Value where
  | null : Value
  | bool : Bool → Value
  | num : Int → Value
  | str : String → Value
  | arr : List Value → Value
  | obj : List (String × Value) → Value

mutual

def decEqValue : (a b : Value) → Decidable (a = b)
  | .null, .null => isTrue rfl
  | .bool x, .bool y =>
    if h : x = y then isTrue (by rw [h]) else isFalse (fun he => h (by injection he))
  | .num x, .num y =>
    if h : x = y then isTrue (by rw [h]) else isFalse (fun he => h (by injection he))
  | .str x, .str y =>
    if h : x = y then isTrue (by rw [h]) else isFalse (fun he => h (by injection he))
  | .arr xs, .arr ys =>
    match decEqValueList xs ys with
    | isTrue h => isTrue (by rw [h])
    | isFalse h => isFalse (fun he => h (by injection he))
  | .obj xs, .obj ys =>
    match decEqEntryList xs ys with
    | isTrue h => isTrue (by rw [h])
    | isFalse h => isFalse (fun he => h (by injection he))
  | .null, .bool _ | .null, .num _ | .null, .str _ | .null, .arr _ | .null, .obj _
  | .bool _, .null | .bool _, .num _ | .bool _, .str _ | .bool _, .arr _ | .bool _, .obj _
  | .num _, .null | .num _, .bool _ | .num _, .str _ | .num _, .arr _ | .num _, .obj _
  | .str _, .null | .str _, .bool _ | .str _, .num _ | .str _, .arr _ | .str _, .obj _
  | .arr _, .null | .arr _, .bool _ | .arr _, .num _ | .arr _, .str _ | .arr _, .obj _
  | .obj _, .null | .obj _, .bool _ | .obj _, .num _ | .obj _, .str _ | .obj _, .arr _ =>
    isFalse (fun he => Value.noConfusion he)

def decEqValueList : (xs ys : List Value) → Decidable (xs = ys)
  | [], [] => isTrue rfl
  | [], _ :: _ => isFalse (fun he => List.noConfusion he)
  | _ :: _, [] => isFalse (fun he => List.noConfusion he)
  | x :: xs, y :: ys =>
    match decEqValue x y with
    | isFalse h => isFalse (fun he => h (by injection he))
    | isTrue h1 =>
      match decEqValueList xs ys with
      | isTrue h2 => isTrue (by rw [h1, h2])
      | isFalse h2 => isFalse (fun he => h2 (by injection he))

def decEqEntryList : (xs ys : List (String × Value)) → Decidable (xs = ys)
  | [], [] => isTrue rfl
  | [], _ :: _ => isFalse (fun he => List.noConfusion he)
  | _ :: _, [] => isFalse (fun he => List.noConfusion he)
  | (k1, v1) :: xs, (k2, v2) :: ys =>
    if hk : k1 = k2 then
      match decEqValue v1 v2 with
      | isFalse h => isFalse (fun he => h (by injection he with h1 h2; injection h1))
      | isTrue h1 =>
        match decEqEntryList xs ys with
        | isTrue h2 => isTrue (by rw [hk, h1, h2])
        | isFalse h2 => isFalse (fun he => h2 (by injection he))
    else isFalse (fun he => hk (by injection he with h1 h2; injection h1))

end

instance : DecidableEq Value := decEqValue

/-- `Value::is_object` from `serde_json`. -/
def Value.isObject : Value → Bool
  | .obj _ => true
  | _ => false

/-- `BTreeMap::get`: look an entry up by key (first match; under the
sorted-keys invariant the match is unique). -/
def mapGet (m : List (String × Value)) (k : String) : Option Value :=
  match m with
  | [] => none
  | (k1, v) :: rest => if k1 = k then some v else mapGet rest k

theorem sizeOf_mapGet_lt (m : List (String × Value)) (k : String) (v : Value)
    (h : mapGet m k = some v) : sizeOf v < sizeOf m := by
  induction m with
  | nil => simp [mapGet] at h
  | cons p rest ih =>
    obtain ⟨k1, w⟩ := p
    simp only [mapGet] at h
    by_cases hk : k1 = k
    · simp [hk] at h
      subst h
      simp
      omega
    · have := ih (by simpa [hk] using h)
      simp
      omega

theorem sizeOf_mapGet_le (m : List (String × Value)) (k : String) :
    sizeOf (mapGet m k) ≤ sizeOf m := by
  cases hg : mapGet m k with
  | none =>
    cases m with
    | nil => simp
    | cons p rest => simp; omega
  | some v =>
    have := sizeOf_mapGet_lt m k v hg
    simp
    omega

/-- The union of the key sets of the three maps.  The Rust code collects the
keys into a `HashSet` (arbitrary iteration order) and inserts the merged
entries into a `BTreeMap` (which stores them sorted by key); iterating the
union in sorted order is observationally equivalent, since the conflict flag
is an order-insensitive OR and the output map is sorted either way. -/
def unionKeys (base_map a_map b_map : List (String × Value)) : List String :=
  List.insertionSort (fun x y => x ≤ y)
    ((base_map.map Prod.fst ++ a_map.map Prod.fst ++ b_map.map Prod.fst).dedup)

mutual

/-- `three_way_merge_recursive` from `src/merge.rs` (the `path` argument,
used only for logging, is dropped).  `none` models a `panic!` escaping. -/
def three_way_merge_recursive (base a b : Value) : Option (Value × Bool) :=
  match base, a, b with
  | .obj base_map, .obj a_map, .obj b_map =>
    match mergeKeys base_map a_map b_map (unionKeys base_map a_map b_map) with
    | some (merged, had_conflict) => some (.obj merged, had_conflict)
    | none => none
  | base, a, b =>
    if a = b then some (a, false)
    else if a = base then some (b, false)
    else if b = base then some (a, false)
    else some (a, true)
termination_by (sizeOf base + sizeOf a + sizeOf b, 0)
decreasing_by
  exact Prod.Lex.left _ _ (by simp; omega)

/-- The `for key in keys` loop of `three_way_merge_recursive`: resolves each
key in turn, accumulating the merged entries and the OR of the conflict
flags.  `none` models a `panic!` escaping from `merge_entry`. -/
def mergeKeys (base_map a_map b_map : List (String × Value)) :
    List String → Option (List (String × Value) × Bool)
  | [] => some ([], false)
  | key :: rest =>
    match merge_entry (mapGet base_map key) (mapGet a_map key) (mapGet b_map key) with
    | none => none
    | some (merged_val, conflict) =>
      match mergeKeys base_map a_map b_map rest with
      | none => none
      | some (tail, had_conflict) =>
        some ((match merged_val with
               | some v => (key, v) :: tail
               | none => tail), conflict || had_conflict)
termination_by keys => (sizeOf base_map + sizeOf a_map + sizeOf b_map, keys.length + 2)
decreasing_by
  · have h1 := sizeOf_mapGet_le base_map key
    have h2 := sizeOf_mapGet_le a_map key
    have h3 := sizeOf_mapGet_le b_map key
    rcases Nat.lt_or_ge
        (sizeOf (mapGet base_map key) + sizeOf (mapGet a_map key) +
          sizeOf (mapGet b_map key))
        (sizeOf base_map + sizeOf a_map + sizeOf b_map) with h | h
    · exact Prod.Lex.left _ _ h
    · have he : sizeOf (mapGet base_map key) + sizeOf (mapGet a_map key) +
          sizeOf (mapGet b_map key) = sizeOf base_map + sizeOf a_map + sizeOf b_map := by
        omega
      rw [he]
      exact Prod.Lex.right _ (by simp)
  · exact Prod.Lex.right _ (by simp)

/-- `merge_entry` from `src/merge.rs` (the `path` argument dropped).  The
outer `Option` layer models the `panic!` in the all-absent arm: `none` is the
panic, `some (r, c)` is a normal return of `(r, c)`. -/
def merge_entry : Option Value → Option Value → Option Value → Option (Option Value × Bool)
  | some base_val, some a_val, some b_val =>
    if a_val = b_val then some (some a_val, false)
    else if a_val = base_val then some (some b_val, false)
    else if b_val = base_val then some (some a_val, false)
    else if a_val.isObject && b_val.isObject && base_val.isObject then
      match three_way_merge_recursive base_val a_val b_val with
      | some (merged_val, conflict) => some (some merged_val, conflict)
      | none => none
    else some (some a_val, true)
  | none, some a_val, some b_val =>
    if a_val = b_val then some (some a_val, false) else some (some a_val, true)
  | none, some a_val, none => some (some a_val, false)
  | none, none, some b_val => some (some b_val, false)
  | some base_val, some a_val, none =>
    if a_val = base_val then some (none, false) else some (some a_val, true)
  | some base_val, none, some b_val =>
    if b_val = base_val then some (none, false) else some (some b_val, true)
  | some _, none, none => some (none, false)
  | none, none, none => none
termination_by ob oa obb => (sizeOf ob + sizeOf oa + sizeOf obb, 1)
decreasing_by
  exact Prod.Lex.left _ _ (by simp; omega)

end

/-- `three_way_merge` from `src/merge.rs`: the public entry point. -/
def three_way_merge (base a b : Value) : Option (Value × Bool) :=
  three_way_merge_recursive base a b

/-- The resolution of one key of the union: `merge_entry` applied to the
three lookups, exactly as in the loop body of `three_way_merge_recursive`. -/
def entryResolve (base_map a_map b_map : List (String × Value)) (k : String) :
    Option (Option Value × Bool) :=
  merge_entry (mapGet base_map k) (mapGet a_map k) (mapGet b_map k)

/-- The entry (if any) that key `k` contributes to the merged object. -/
def entryVal (base_map a_map b_map : List (String × Value)) (k : String) :
    Option (String × Value) :=
  (entryResolve base_map a_map b_map k).bind fun r => r.1.map fun v => (k, v)

/-- The conflict flag of key `k`'s resolution (`false` on the panic arm,
which never contributes to a returned flag). -/
def entryConflict (base_map a_map b_map : List (String × Value)) (k : String) : Bool :=
  match entryResolve base_map a_map b_map k with
  | some (_, c) => c
  | none => false

/-- Whether key `k`'s resolution keeps the key present in the merged object. -/
def entryPresent (base_map a_map b_map : List (String × Value)) (k : String) : Bool :=
  match entryResolve base_map a_map b_map k with
  | some (some _, _) => true
  | _ => false

/-- The full entry list of the merged object, one resolution per union key. -/
def mergedEntries (base_map a_map b_map : List (String × Value)) :
    List (String × Value) :=
  (unionKeys base_map a_map b_map).filterMap (entryVal base_map a_map b_map)

theorem mapGet_isSome_iff_mem (m : List (String × Value)) (k : String) :
    (mapGet m k).isSome = true ↔ k ∈ m.map Prod.fst := by
  induction m with
  | nil => simp [mapGet]
  | cons p rest ih =>
    obtain ⟨k1, v⟩ := p
    by_cases hk : k1 = k
    · subst hk
      simp [mapGet]
    · simp [mapGet, hk, ih, Ne.symm hk]

theorem mapGet_eq_none_of_not_mem (m : List (String × Value)) (k : String)
    (h : k ∉ m.map Prod.fst) : mapGet m k = none := by
  cases hg : mapGet m k with
  | none => rfl
  | some v =>
    exact absurd ((mapGet_isSome_iff_mem m k).mp (by simp [hg])) h

theorem mem_unionKeys (base_map a_map b_map : List (String × Value)) (k : String) :
    k ∈ unionKeys base_map a_map b_map ↔
      k ∈ base_map.map Prod.fst ∨ k ∈ a_map.map Prod.fst ∨ k ∈ b_map.map Prod.fst := by
  unfold unionKeys
  rw [(List.perm_insertionSort _ _).mem_iff, List.mem_dedup]
  simp

theorem unionKeys_sorted (base_map a_map b_map : List (String × Value)) :
    (unionKeys base_map a_map b_map).Sorted (fun x y : String => x ≤ y) :=
  List.sorted_insertionSort _ _

theorem unionKeys_nodup (base_map a_map b_map : List (String × Value)) :
    (unionKeys base_map a_map b_map).Nodup :=
  (List.perm_insertionSort _ _).nodup_iff.mpr (List.nodup_dedup _)

theorem unionKeys_sorted_lt (base_map a_map b_map : List (String × Value)) :
    (unionKeys base_map a_map b_map).Sorted (fun x y : String => x < y) :=
  (unionKeys_sorted base_map a_map b_map).lt_of_le (unionKeys_nodup base_map a_map b_map)

theorem unionKeys_swap (base_map a_map b_map : List (String × Value)) :
    unionKeys base_map b_map a_map = unionKeys base_map a_map b_map := by
  apply List.eq_of_perm_of_sorted _ (unionKeys_sorted _ _ _) (unionKeys_sorted _ _ _)
  rw [List.perm_ext_iff_of_nodup (unionKeys_nodup _ _ _) (unionKeys_nodup _ _ _)]
  intro k
  rw [mem_unionKeys, mem_unionKeys]
  tauto

theorem mergeKeys_eq_some (base_map a_map b_map : List (String × Value))
    (keys : List String)
    (h : ∀ k ∈ keys, entryResolve base_map a_map b_map k ≠ none) :
    mergeKeys base_map a_map b_map keys =
      some (keys.filterMap (entryVal base_map a_map b_map),
            keys.any (entryConflict base_map a_map b_map)) := by
  induction keys with
  | nil => rw [mergeKeys.eq_def]; simp
  | cons key rest ih =>
    have hk := h key (by simp)
    rw [mergeKeys.eq_def]
    cases hr : entryResolve base_map a_map b_map key with
    | none => exact absurd hr hk
    | some rc =>
      obtain ⟨mv, c⟩ := rc
      have hr2 : merge_entry (mapGet base_map key) (mapGet a_map key) (mapGet b_map key)
          = some (mv, c) := hr
      simp only [hr2, ih (fun k hk2 => h k (by simp [hk2]))]
      cases mv <;> simp [entryVal, entryConflict, hr]

theorem twmr_leaf (base a b : Value)
    (h : (base.isObject && a.isObject && b.isObject) = false) :
    three_way_merge_recursive base a b =
      some (if a = b then (a, false)
            else if a = base then (b, false)
            else if b = base then (a, false)
            else (a, true)) := by
  rw [three_way_merge_recursive.eq_def]
  cases base <;> cases a <;> cases b <;> simp_all [Value.isObject] <;> split_ifs <;> rfl

theorem twmr_obj (base_map a_map b_map : List (String × Value)) :
    three_way_merge_recursive (.obj base_map) (.obj a_map) (.obj b_map) =
      match mergeKeys base_map a_map b_map (unionKeys base_map a_map b_map) with
      | some (merged, had_conflict) => some (.obj merged, had_conflict)
      | none => none := by
  rw [three_way_merge_recursive.eq_def]

theorem merge_entry_ne_none (x y z : Option Value)
    (hnz : ¬(x = none ∧ y = none ∧ z = none))
    (hsub : ∀ bv av cv, x = some bv → y = some av → z = some cv →
        three_way_merge_recursive bv av cv ≠ none) :
    merge_entry x y z ≠ none := by
  rw [merge_entry.eq_def]
  cases x with
  | none => cases y <;> cases z <;> simp_all <;> split <;> simp
  | some bv =>
    cases y with
    | none => cases z <;> simp <;> split <;> simp
    | some av =>
      cases z with
      | none => simp; split <;> simp
      | some cv =>
        simp only []
        split
        · simp
        · split
          · simp
          · split
            · simp
            · split
              · cases hw : three_way_merge_recursive bv av cv with
                | none => exact absurd hw (hsub bv av cv rfl rfl rfl)
                | some r => obtain ⟨v, c⟩ := r; simp
              · simp

theorem value_sizeOf_pos (v : Value) : 0 < sizeOf v := by
  cases v <;> simp

theorem twmr_ne_none_aux :
    ∀ n : Nat, ∀ base a b : Value, sizeOf base + sizeOf a + sizeOf b ≤ n →
      three_way_merge_recursive base a b ≠ none := by
  intro n
  induction n with
  | zero =>
    intro base a b hle
    have := value_sizeOf_pos base
    omega
  | succ n ih =>
    intro base a b hle
    by_cases hobj : (base.isObject && a.isObject && b.isObject) = true
    · obtain ⟨base_map, rfl⟩ : ∃ m, base = Value.obj m := by
        cases base <;> simp_all [Value.isObject]
      obtain ⟨a_map, rfl⟩ : ∃ m, a = Value.obj m := by
        cases a <;> simp_all [Value.isObject]
      obtain ⟨b_map, rfl⟩ : ∃ m, b = Value.obj m := by
        cases b <;> simp_all [Value.isObject]
      rw [twmr_obj]
      rw [mergeKeys_eq_some]
      · simp
      · intro k hk
        apply merge_entry_ne_none
        · rw [mem_unionKeys] at hk
          rintro ⟨h1, h2, h3⟩
          rcases hk with hk | hk | hk
          · have hs := (mapGet_isSome_iff_mem base_map k).mpr hk
            rw [h1] at hs
            simp at hs
          · have hs := (mapGet_isSome_iff_mem a_map k).mpr hk
            rw [h2] at hs
            simp at hs
          · have hs := (mapGet_isSome_iff_mem b_map k).mpr hk
            rw [h3] at hs
            simp at hs
        · intro bv av cv h1 h2 h3
          apply ih
          have s1 := sizeOf_mapGet_lt base_map k bv h1
          have s2 := sizeOf_mapGet_lt a_map k av h2
          have s3 := sizeOf_mapGet_lt b_map k cv h3
          simp at hle
          omega
    · rw [twmr_leaf base a b (by simpa using hobj)]
      simp

theorem twmr_ne_none (base a b : Value) :
    three_way_merge_recursive base a b ≠ none :=
  twmr_ne_none_aux (sizeOf base + sizeOf a + sizeOf b) base a b (Nat.le_refl _)

theorem entryResolve_ne_none (base_map a_map b_map : List (String × Value)) (k : String)
    (hk : k ∈ unionKeys base_map a_map b_map) :
    entryResolve base_map a_map b_map k ≠ none := by
  apply merge_entry_ne_none
  · rw [mem_unionKeys] at hk
    rintro ⟨h1, h2, h3⟩
    rcases hk with hk | hk | hk
    · have hs := (mapGet_isSome_iff_mem base_map k).mpr hk
      rw [h1] at hs
      simp at hs
    · have hs := (mapGet_isSome_iff_mem a_map k).mpr hk
      rw [h2] at hs
      simp at hs
    · have hs := (mapGet_isSome_iff_mem b_map k).mpr hk
      rw [h3] at hs
      simp at hs
  · intro bv av cv h1 h2 h3
    exact twmr_ne_none bv av cv

theorem twmr_obj_closed (base_map a_map b_map : List (String × Value)) :
    three_way_merge_recursive (.obj base_map) (.obj a_map) (.obj b_map) =
      some (.obj (mergedEntries base_map a_map b_map),
            (unionKeys base_map a_map b_map).any (entryConflict base_map a_map b_map)) := by
  rw [twmr_obj, mergeKeys_eq_some _ _ _ _ (fun k hk => entryResolve_ne_none _ _ _ k hk)]
  rfl

/-- Strict sortedness of a key list (chain of `<` between neighbours): the
`BTreeMap` key invariant. -/
def keysStrictSorted : List String → Bool
  | [] => true
  | [_] => true
  | k1 :: k2 :: rest => (decide (k1 < k2)) && keysStrictSorted (k2 :: rest)

mutual

/-- The `BTreeMap` representation invariant of Rust `serde_json::Value`
trees, which every value of the Rust `Value` type satisfies by construction:
at every object node (also inside arrays) the keys are strictly sorted. -/
def isCanonical : Value → Bool
  | .null => true
  | .bool _ => true
  | .num _ => true
  | .str _ => true
  | .arr xs => isCanonicalList xs
  | .obj m => keysStrictSorted (m.map Prod.fst) && isCanonicalEntries m

/-- `isCanonical` on every element of an array. -/
def isCanonicalList : List Value → Bool
  | [] => true
  | v :: rest => isCanonical v && isCanonicalList rest

/-- `isCanonical` on every value of an object's entry list. -/
def isCanonicalEntries : List (String × Value) → Bool
  | [] => true
  | (_, v) :: rest => isCanonical v && isCanonicalEntries rest

end

theorem keysStrictSorted_iff_pairwise (l : List String) :
    keysStrictSorted l = true ↔ l.Pairwise (fun x y : String => x < y) := by
  rw [show (l.Pairwise (fun x y : String => x < y)) ↔ List.Chain' (fun x y : String => x < y) l
      from (List.chain'_iff_pairwise).symm]
  induction l with
  | nil => simp [keysStrictSorted]
  | cons k1 rest ih =>
    cases rest with
    | nil => simp [keysStrictSorted]
    | cons k2 rest2 =>
      rw [List.chain'_cons, keysStrictSorted]
      simp [ih]

theorem filterMap_congr_mem {α β : Type} (f g : α → Option β) :
    ∀ l : List α, (∀ x ∈ l, f x = g x) → l.filterMap f = l.filterMap g := by
  intro l
  induction l with
  | nil => simp
  | cons x rest ih =>
    intro h
    rw [List.filterMap_cons, List.filterMap_cons, h x (by simp),
      ih (fun y hy => h y (by simp [hy]))]

theorem filterMap_mapGet_of_sorted :
    ∀ (l : List String) (m : List (String × Value)),
      l.Pairwise (fun x y : String => x < y) →
      (m.map Prod.fst).Pairwise (fun x y : String => x < y) →
      (∀ k ∈ m.map Prod.fst, k ∈ l) →
      l.filterMap (fun k => (mapGet m k).map (fun v => (k, v))) = m := by
  intro l
  induction l with
  | nil =>
    intro m _ _ hsub
    cases m with
    | nil => simp
    | cons p rest => exact absurd (hsub p.1 (by simp)) (by simp)
  | cons x l2 ih =>
    intro m hl hm hsub
    rw [List.pairwise_cons] at hl
    obtain ⟨hxlt, hl2⟩ := hl
    cases m with
    | nil =>
      simp [mapGet]
    | cons p rest =>
      obtain ⟨k0, v0⟩ := p
      simp only [List.map_cons, List.pairwise_cons] at hm
      obtain ⟨hk0lt, hmrest⟩ := hm
      by_cases hx : x = k0
      · subst hx
        have hget : mapGet ((x, v0) :: rest) x = some v0 := by simp [mapGet]
        rw [List.filterMap_cons, hget]
        simp only [Option.map_some']
        have hcong : ∀ k ∈ l2,
            (mapGet ((x, v0) :: rest) k).map (fun v => (k, v)) =
            (mapGet rest k).map (fun v => (k, v)) := by
          intro k hk
          have hxk : x ≠ k := ne_of_lt (hxlt k hk)
          simp [mapGet, hxk]
        rw [filterMap_congr_mem _ _ _ hcong]
        rw [ih rest hl2 hmrest ?_]
        intro k hk
        have h1 : k ∈ (x :: l2) := hsub k (by simp [hk])
        have h2 : x < k := hk0lt k hk
        rcases List.mem_cons.mp h1 with h1 | h1
        · subst h1
          exact absurd h2 (lt_irrefl _)
        · exact h1
      · have hxm : x ∉ ((k0, v0) :: rest).map Prod.fst := by
          intro hmem
          rcases (by simpa using hmem : x = k0 ∨ x ∈ rest.map Prod.fst) with h | h
          · exact hx h
          · have hk0x : k0 < x := hk0lt x h
            have hk0l : k0 ∈ (x :: l2) := hsub k0 (by simp)
            rcases List.mem_cons.mp hk0l with h2 | h2
            · subst h2
              exact absurd hk0x (lt_irrefl _)
            · exact absurd hk0x (not_lt_of_lt (hxlt k0 h2))
        rw [List.filterMap_cons, mapGet_eq_none_of_not_mem _ _ hxm]
        simp only [Option.map_none']
        apply ih _ hl2 (by simp only [List.map_cons, List.pairwise_cons]; exact ⟨hk0lt, hmrest⟩)
        intro k hk
        have h1 : k ∈ (x :: l2) := hsub k hk
        rcases List.mem_cons.mp h1 with h1 | h1
        · subst h1
          exact absurd hk hxm
        · exact h1

theorem merge_entry_svv_sw (v w : Value) :
    merge_entry (some v) (some v) (some w) = some (some w, false) := by
  rw [merge_entry.eq_def]
  by_cases h : v = w
  · subst h
    simp
  · simp [h]

theorem merge_entry_sv_sw_sv (v w : Value) :
    merge_entry (some v) (some w) (some v) = some (some w, false) := by
  rw [merge_entry.eq_def]
  by_cases h : w = v
  · subst h
    simp
  · simp [h]

theorem merge_entry_sv_sw_sw (v w : Value) :
    merge_entry (some v) (some w) (some w) = some (some w, false) := by
  rw [merge_entry.eq_def]
  simp

theorem merge_entry_n_sw_sw (w : Value) :
    merge_entry none (some w) (some w) = some (some w, false) := by
  rw [merge_entry.eq_def]
  simp

theorem merge_entry_n_sw_n (w : Value) :
    merge_entry none (some w) none = some (some w, false) := by
  rw [merge_entry.eq_def]

theorem merge_entry_n_n_sw (w : Value) :
    merge_entry none none (some w) = some (some w, false) := by
  rw [merge_entry.eq_def]

theorem merge_entry_sv_sv_n (v : Value) :
    merge_entry (some v) (some v) none = some (none, false) := by
  rw [merge_entry.eq_def]
  simp

theorem merge_entry_sv_n_sv (v : Value) :
    merge_entry (some v) none (some v) = some (none, false) := by
  rw [merge_entry.eq_def]
  simp

theorem merge_entry_sv_n_n (v : Value) :
    merge_entry (some v) none none = some (none, false) := by
  rw [merge_entry.eq_def]

theorem merge_entry_all_none : merge_entry none none none = none := by
  rw [merge_entry.eq_def]

theorem entryVal_self (m : List (String × Value)) (k : String) :
    entryVal m m m k = (mapGet m k).map (fun v => (k, v)) := by
  unfold entryVal entryResolve
  cases hg : mapGet m k with
  | none => rw [merge_entry_all_none]; rfl
  | some v => rw [merge_entry_svv_sw]; rfl

theorem entryConflict_self (m : List (String × Value)) (k : String) :
    entryConflict m m m k = false := by
  unfold entryConflict entryResolve
  cases hg : mapGet m k with
  | none => rw [merge_entry_all_none]
  | some v => rw [merge_entry_svv_sw]

theorem entryVal_baseA (bm cm : List (String × Value)) (k : String) :
    entryVal bm bm cm k = (mapGet cm k).map (fun v => (k, v)) := by
  unfold entryVal entryResolve
  cases hg1 : mapGet bm k with
  | none =>
    cases hg2 : mapGet cm k with
    | none => rw [merge_entry_all_none]; rfl
    | some w => rw [merge_entry_n_n_sw]; rfl
  | some v =>
    cases hg2 : mapGet cm k with
    | none => rw [merge_entry_sv_sv_n]; rfl
    | some w => rw [merge_entry_svv_sw]; rfl

theorem entryConflict_baseA (bm cm : List (String × Value)) (k : String) :
    entryConflict bm bm cm k = false := by
  unfold entryConflict entryResolve
  cases hg1 : mapGet bm k with
  | none =>
    cases hg2 : mapGet cm k with
    | none => rw [merge_entry_all_none]
    | some w => rw [merge_entry_n_n_sw]
  | some v =>
    cases hg2 : mapGet cm k with
    | none => rw [merge_entry_sv_sv_n]
    | some w => rw [merge_entry_svv_sw]

theorem entryVal_baseB (bm am : List (String × Value)) (k : String) :
    entryVal bm am bm k = (mapGet am k).map (fun v => (k, v)) := by
  unfold entryVal entryResolve
  cases hg1 : mapGet bm k with
  | none =>
    cases hg2 : mapGet am k with
    | none => rw [merge_entry_all_none]; rfl
    | some w => rw [merge_entry_n_sw_n]; rfl
  | some v =>
    cases hg2 : mapGet am k with
    | none => rw [merge_entry_sv_n_sv]; rfl
    | some w => rw [merge_entry_sv_sw_sv]; rfl

theorem entryConflict_baseB (bm am : List (String × Value)) (k : String) :
    entryConflict bm am bm k = false := by
  unfold entryConflict entryResolve
  cases hg1 : mapGet bm k with
  | none =>
    cases hg2 : mapGet am k with
    | none => rw [merge_entry_all_none]
    | some w => rw [merge_entry_n_sw_n]
  | some v =>
    cases hg2 : mapGet am k with
    | none => rw [merge_entry_sv_n_sv]
    | some w => rw [merge_entry_sv_sw_sv]

theorem entryVal_ab (bm am : List (String × Value)) (k : String) :
    entryVal bm am am k = (mapGet am k).map (fun v => (k, v)) := by
  unfold entryVal entryResolve
  cases hg1 : mapGet bm k with
  | none =>
    cases hg2 : mapGet am k with
    | none => rw [merge_entry_all_none]; rfl
    | some w => rw [merge_entry_n_sw_sw]; rfl
  | some v =>
    cases hg2 : mapGet am k with
    | none => rw [merge_entry_sv_n_n]; rfl
    | some w => rw [merge_entry_sv_sw_sw]; rfl

theorem entryConflict_ab (bm am : List (String × Value)) (k : String) :
    entryConflict bm am am k = false := by
  unfold entryConflict entryResolve
  cases hg1 : mapGet bm k with
  | none =>
    cases hg2 : mapGet am k with
    | none => rw [merge_entry_all_none]
    | some w => rw [merge_entry_n_sw_sw]
  | some v =>
    cases hg2 : mapGet am k with
    | none => rw [merge_entry_sv_n_n]
    | some w => rw [merge_entry_sv_sw_sw]

theorem isCanonical_obj_keys (m : List (String × Value)) (h : isCanonical (.obj m) = true) :
    (m.map Prod.fst).Pairwise (fun x y : String => x < y) := by
  have h2 : keysStrictSorted (m.map Prod.fst) = true := by
    simp [isCanonical] at h
    exact h.1
  exact (keysStrictSorted_iff_pairwise _).mp h2

theorem mergedEntries_eq_of_pointwise (bm am cm tm : List (String × Value))
    (hpt : ∀ k, entryVal bm am cm k = (mapGet tm k).map (fun v => (k, v)))
    (htm : (tm.map Prod.fst).Pairwise (fun x y : String => x < y))
    (hsub : ∀ k ∈ tm.map Prod.fst, k ∈ unionKeys bm am cm) :
    mergedEntries bm am cm = tm := by
  unfold mergedEntries
  rw [filterMap_congr_mem _ _ _ (fun k _ => hpt k)]
  exact filterMap_mapGet_of_sorted _ _ (unionKeys_sorted_lt bm am cm) htm hsub

theorem anyConflict_false_of_pointwise (bm am cm : List (String × Value))
    (h : ∀ k, entryConflict bm am cm k = false) :
    (unionKeys bm am cm).any (entryConflict bm am cm) = false := by
  rw [List.any_eq_false]
  intro k _
  simp [h k]

/-- **C5** (confirmed).  Identity: for every tree `T` (satisfying the
`BTreeMap` representation invariant that every Rust `serde_json::Value`
satisfies by construction), `three_way_merge(T, T, T)` returns `(T, false)`:
the merged tree equals `T` and the conflict flag is `false`. -/
theorem c5_identity (T : Value) (h : isCanonical T = true) :
    three_way_merge T T T = some (T, false) := by
  unfold three_way_merge
  by_cases hT : T.isObject = true
  · obtain ⟨m, rfl⟩ : ∃ m, T = Value.obj m := by
      cases T <;> simp_all [Value.isObject]
    rw [twmr_obj_closed]
    rw [mergedEntries_eq_of_pointwise m m m m (entryVal_self m) (isCanonical_obj_keys m h)
      (fun k hk => (mem_unionKeys m m m k).mpr (Or.inl hk))]
    rw [anyConflict_false_of_pointwise m m m (entryConflict_self m)]
  · rw [twmr_leaf _ _ _ (by simp [hT])]
    simp

/-- Closed witness for C5 at the concrete tree
`{"dir": {"f": "1"}, "g": 2}`. -/
theorem c5_witness :
    isCanonical (.obj [("dir", .obj [("f", .str "1")]), ("g", .num 2)]) = true ∧
    three_way_merge
        (.obj [("dir", .obj [("f", .str "1")]), ("g", .num 2)])
        (.obj [("dir", .obj [("f", .str "1")]), ("g", .num 2)])
        (.obj [("dir", .obj [("f", .str "1")]), ("g", .num 2)])
      = some (.obj [("dir", .obj [("f", .str "1")]), ("g", .num 2)], false) := by
  have hc : isCanonical (.obj [("dir", .obj [("f", .str "1")]), ("g", .num 2)]) = true := by
    simp [isCanonical, isCanonicalEntries, isCanonicalList, keysStrictSorted]
    decide
  exact ⟨hc, c5_identity _ hc⟩

/-- **C6** (confirmed).  A branch equal to base never wins and never
conflicts: substituting `a = base` (deep equality of canonical values is
Lean equality), `three_way_merge(base, base, b)` returns `(b, false)` for
every `b`, and symmetrically `three_way_merge(base, a, base)` returns
`(a, false)` for every `a` (both sides satisfying the `BTreeMap`
representation invariant). -/
theorem c6_unchanged_branch (base a b : Value)
    (ha : isCanonical a = true) (hb : isCanonical b = true) :
    three_way_merge base base b = some (b, false) ∧
    three_way_merge base a base = some (a, false) := by
  constructor
  · unfold three_way_merge
    by_cases hbase : base.isObject = true
    · by_cases hbv : b.isObject = true
      · obtain ⟨bm, rfl⟩ : ∃ m, base = Value.obj m := by
          cases base <;> simp_all [Value.isObject]
        obtain ⟨cm, rfl⟩ : ∃ m, b = Value.obj m := by
          cases b <;> simp_all [Value.isObject]
        rw [twmr_obj_closed]
        rw [mergedEntries_eq_of_pointwise bm bm cm cm (entryVal_baseA bm cm)
          (isCanonical_obj_keys cm hb)
          (fun k hk => (mem_unionKeys bm bm cm k).mpr (Or.inr (Or.inr hk)))]
        rw [anyConflict_false_of_pointwise bm bm cm (entryConflict_baseA bm cm)]
      · rw [twmr_leaf _ _ _ (by simp [hbv])]
        by_cases he : base = b <;> simp [he]
    · rw [twmr_leaf _ _ _ (by simp [hbase])]
      by_cases he : base = b <;> simp [he]
  · unfold three_way_merge
    by_cases hbase : base.isObject = true
    · by_cases hav : a.isObject = true
      · obtain ⟨bm, rfl⟩ : ∃ m, base = Value.obj m := by
          cases base <;> simp_all [Value.isObject]
        obtain ⟨am, rfl⟩ : ∃ m, a = Value.obj m := by
          cases a <;> simp_all [Value.isObject]
        rw [twmr_obj_closed]
        rw [mergedEntries_eq_of_pointwise bm am bm am (entryVal_baseB bm am)
          (isCanonical_obj_keys am ha)
          (fun k hk => (mem_unionKeys bm am bm k).mpr (Or.inr (Or.inl hk)))]
        rw [anyConflict_false_of_pointwise bm am bm (entryConflict_baseB bm am)]
      · rw [twmr_leaf _ _ _ (by simp [hav])]
        by_cases he : a = base <;> simp [he]
    · rw [twmr_leaf _ _ _ (by simp [hbase])]
      by_cases he : a = base <;> simp [he]

/-- Closed witness for C6: base `{"f": "1"}`, edited side `{"f": "2"}`. -/
theorem c6_witness :
    isCanonical (.obj [("f", .str "2")]) = true ∧
    three_way_merge (.obj [("f", .str "1")]) (.obj [("f", .str "1")]) (.obj [("f", .str "2")])
      = some (.obj [("f", .str "2")], false) ∧
    three_way_merge (.obj [("f", .str "1")]) (.obj [("f", .str "2")]) (.obj [("f", .str "1")])
      = some (.obj [("f", .str "2")], false) := by
  have hc : isCanonical (.obj [("f", .str "2")]) = true := by
    simp [isCanonical, isCanonicalEntries, keysStrictSorted]
  have h := c6_unchanged_branch (.obj [("f", .str "1")]) (.obj [("f", .str "2")])
    (.obj [("f", .str "2")]) hc hc
  exact ⟨hc, h.1, h.2⟩

/-- **C10** (confirmed).  When both branches hold identical trees `a`
(satisfying the `BTreeMap` representation invariant), the merge returns
`(a, false)` regardless of `base`, including dropping base-only keys both
branches deleted. -/
theorem c10_both_branches_equal (base a : Value) (h : isCanonical a = true) :
    three_way_merge base a a = some (a, false) := by
  unfold three_way_merge
  by_cases hbase : base.isObject = true
  · by_cases hav : a.isObject = true
    · obtain ⟨bm, rfl⟩ : ∃ m, base = Value.obj m := by
        cases base <;> simp_all [Value.isObject]
      obtain ⟨am, rfl⟩ : ∃ m, a = Value.obj m := by
        cases a <;> simp_all [Value.isObject]
      rw [twmr_obj_closed]
      rw [mergedEntries_eq_of_pointwise bm am am am (entryVal_ab bm am)
        (isCanonical_obj_keys am h)
        (fun k hk => (mem_unionKeys bm am am k).mpr (Or.inr (Or.inl hk)))]
      rw [anyConflict_false_of_pointwise bm am am (entryConflict_ab bm am)]
    · rw [twmr_leaf _ _ _ (by simp [hav])]
      simp
  · rw [twmr_leaf _ _ _ (by simp [hbase])]
    simp

/-- Closed witness for C10: base `{"gone": "1"}`, both branches `{}` —
the base-only key is dropped with no conflict. -/
theorem c10_witness :
    isCanonical (.obj []) = true ∧
    three_way_merge (.obj [("gone", .str "1")]) (.obj []) (.obj [])
      = some (.obj [], false) := by
  have hc : isCanonical (.obj []) = true := by
    simp [isCanonical, isCanonicalEntries, keysStrictSorted]
  exact ⟨hc, c10_both_branches_equal _ _ hc⟩

/-- **C1** (confirmed).  At any position where leaf resolution applies (at
least one of the three values is not an object), the result is decided in
order: `a == b` gives `a` with no conflict; else `a == base` gives `b` with
no conflict; else `b == base` gives `a` with no conflict; otherwise `a` with
the conflict flag `true` (branch A wins). -/
theorem c1_leaf_resolution (base a b : Value)
    (h : (base.isObject && a.isObject && b.isObject) = false) :
    three_way_merge_recursive base a b =
      some (if a = b then (a, false)
            else if a = base then (b, false)
            else if b = base then (a, false)
            else (a, true)) :=
  twmr_leaf base a b h

/-- Closed witness for C1: three pairwise-distinct strings conflict and keep
branch A's value. -/
theorem c1_witness :
    ((Value.str "1").isObject && (Value.str "A").isObject && (Value.str "B").isObject) = false ∧
    three_way_merge_recursive (.str "1") (.str "A") (.str "B") =
      some (if Value.str "A" = Value.str "B" then (Value.str "A", false)
            else if Value.str "A" = Value.str "1" then (Value.str "B", false)
            else if Value.str "B" = Value.str "1" then (Value.str "A", false)
            else (Value.str "A", true)) :=
  ⟨by decide, c1_leaf_resolution (.str "1") (.str "A") (.str "B") (by decide)⟩

/-- **C2** (confirmed).  Per-key deletion cases: a key deleted in one branch
while the other branch left it equal to base is dropped with no conflict; a
key deleted in both branches is dropped with no conflict; a key deleted in
one branch but changed from base in the other keeps the modifying branch's
value with the conflict flag `true`. -/
theorem c2_deletion_resolution (x a b : Value) :
    merge_entry (some x) (some a) none
      = some (if a = x then (none, false) else (some a, true)) ∧
    merge_entry (some x) none (some b)
      = some (if b = x then (none, false) else (some b, true)) ∧
    merge_entry (some x) none none = some (none, false) := by
  refine ⟨?_, ?_, ?_⟩
  · rw [merge_entry.eq_def]
    by_cases h : a = x <;> simp [h]
  · rw [merge_entry.eq_def]
    by_cases h : b = x <;> simp [h]
  · rw [merge_entry.eq_def]

theorem filterMap_entryVal_keys (bm am cm : List (String × Value)) :
    ∀ l : List String,
      (l.filterMap (entryVal bm am cm)).map Prod.fst
        = l.filter (fun k => entryPresent bm am cm k) := by
  intro l
  induction l with
  | nil => simp
  | cons k rest ih =>
    rw [List.filterMap_cons, List.filter_cons]
    cases hr : entryResolve bm am cm k with
    | none => simp [entryVal, entryPresent, hr, ih]
    | some rc =>
      obtain ⟨mv, c⟩ := rc
      cases mv <;> simp [entryVal, entryPresent, hr, ih]

/-- **C3** (confirmed).  When all three values are objects the merge returns
an `Object` (never absence, even when empty), and the merged key list is
exactly the keys of the union of the three key sets whose per-key resolution
returned a present value. -/
theorem c3_object_union_keys (bm am cm : List (String × Value)) :
    three_way_merge_recursive (.obj bm) (.obj am) (.obj cm)
      = some (.obj (mergedEntries bm am cm),
              (unionKeys bm am cm).any (entryConflict bm am cm)) ∧
    (mergedEntries bm am cm).map Prod.fst
      = (unionKeys bm am cm).filter (fun k => entryPresent bm am cm k) :=
  ⟨twmr_obj_closed bm am cm, filterMap_entryVal_keys bm am cm (unionKeys bm am cm)⟩

/-- **C4** (confirmed).  The merge never halts (no panic, a merged tree is
always produced), and at an object node the returned `had_conflict` flag is
exactly the OR (`List.any`) of the conflict results of the per-key
resolutions over the union of keys — each of which inherits the flag of its
recursive sub-merge — so a conflict at any nested depth makes the top-level
flag `true`. -/
theorem c4_conflict_propagation :
    (∀ base a b : Value, three_way_merge base a b ≠ none) ∧
    (∀ bm am cm : List (String × Value),
      (three_way_merge (.obj bm) (.obj am) (.obj cm)).map Prod.snd
        = some ((unionKeys bm am cm).any (entryConflict bm am cm))) := by
  constructor
  · intro base a b
    unfold three_way_merge
    exact twmr_ne_none base a b
  · intro bm am cm
    unfold three_way_merge
    rw [twmr_obj_closed]
    rfl

/-- **C7** (confirmed).  The all-absent case of `merge_entry` is the fatal
(panic) case, and it is unreachable from `three_way_merge`: every key of the
union is present in at least one of the three maps, and the whole merge
never returns the panic marker for any input trees. -/
theorem c7_panic_unreachable :
    merge_entry none none none = none ∧
    (∀ (bm am cm : List (String × Value)) (k : String),
      k ∈ unionKeys bm am cm →
        ¬(mapGet bm k = none ∧ mapGet am k = none ∧ mapGet cm k = none)) ∧
    (∀ base a b : Value, three_way_merge base a b ≠ none) := by
  refine ⟨merge_entry_all_none, ?_, ?_⟩
  · rintro bm am cm k hk ⟨h1, h2, h3⟩
    rw [mem_unionKeys] at hk
    rcases hk with hk | hk | hk
    · have hs := (mapGet_isSome_iff_mem bm k).mpr hk
      rw [h1] at hs
      simp at hs
    · have hs := (mapGet_isSome_iff_mem am k).mpr hk
      rw [h2] at hs
      simp at hs
    · have hs := (mapGet_isSome_iff_mem cm k).mpr hk
      rw [h3] at hs
      simp at hs
  · intro base a b
    unfold three_way_merge
    exact twmr_ne_none base a b

/-- Closed witness for C7's union-membership hypothesis at a concrete key. -/
theorem c7_witness :
    ("f" ∈ unionKeys [("f", Value.null)] [] []) ∧
    ¬(mapGet [("f", Value.null)] "f" = none ∧
      mapGet ([] : List (String × Value)) "f" = none ∧
      mapGet ([] : List (String × Value)) "f" = none) := by
  have hm : ("f" : String) ∈ unionKeys [("f", Value.null)] [] [] := by
    rw [mem_unionKeys]
    left
    simp
  exact ⟨hm, c7_panic_unreachable.2.1 _ _ _ _ hm⟩

/-- **C8** (confirmed).  With all three entries present and pairwise
distinct, if both branch entries are objects but the base entry is not, the
merge does not recurse: it keeps branch A's entry and flags a conflict
(recursion requires all three, including base, to be objects). -/
theorem c8_no_recursion_without_object_base (base_val a_val b_val : Value)
    (hab : ¬a_val = b_val) (hA : ¬a_val = base_val) (hB : ¬b_val = base_val)
    (hao : a_val.isObject = true) (hbo : b_val.isObject = true)
    (hbase : base_val.isObject = false) :
    merge_entry (some base_val) (some a_val) (some b_val) = some (some a_val, true) := by
  rw [merge_entry.eq_def]
  simp [hab, hA, hB, hao, hbo, hbase]

/-- Closed witness for C8: base is a scalar while both branches are
(different) objects. -/
theorem c8_witness :
    ¬(Value.obj [] = Value.obj [("k", Value.null)]) ∧
    ¬(Value.obj [] = Value.null) ∧
    ¬(Value.obj [("k", Value.null)] = Value.null) ∧
    (Value.obj []).isObject = true ∧
    (Value.obj [("k", Value.null)]).isObject = true ∧
    Value.null.isObject = false ∧
    merge_entry (some Value.null) (some (Value.obj [])) (some (Value.obj [("k", Value.null)]))
      = some (some (Value.obj []), true) := by
  have h1 : ¬(Value.obj [] = Value.obj [("k", Value.null)]) := by simp
  have h2 : ¬(Value.obj [] = Value.null) := by simp
  have h3 : ¬(Value.obj [("k", Value.null)] = Value.null) := by simp
  exact ⟨h1, h2, h3, rfl, rfl, rfl,
    c8_no_recursion_without_object_base _ _ _ h1 h2 h3 rfl rfl rfl⟩

theorem any_congr_mem {α : Type} (f g : α → Bool) :
    ∀ l : List α, (∀ x ∈ l, f x = g x) → l.any f = l.any g := by
  intro l
  induction l with
  | nil =>
    intro _
    rfl
  | cons x rest ih =>
    intro h
    simp only [List.any_cons, h x (by simp), ih (fun y hy => h y (by simp [hy]))]

theorem entryConflict_eq_getD (bm am cm : List (String × Value)) (k : String) :
    entryConflict bm am cm k = ((entryResolve bm am cm k).map Prod.snd).getD false := by
  unfold entryConflict
  cases entryResolve bm am cm k with
  | none => rfl
  | some rc =>
    obtain ⟨v, c⟩ := rc
    rfl

theorem merge_entry_flag_symm (x y z : Option Value)
    (hsub : ∀ bv av cv, x = some bv → y = some av → z = some cv →
        (three_way_merge_recursive bv av cv).map Prod.snd =
        (three_way_merge_recursive bv cv av).map Prod.snd) :
    (merge_entry x y z).map Prod.snd = (merge_entry x z y).map Prod.snd := by
  cases x with
  | none =>
    cases y with
    | none =>
      cases z with
      | none => rfl
      | some cv => rw [merge_entry_n_n_sw, merge_entry_n_sw_n]
    | some av =>
      cases z with
      | none => rw [merge_entry_n_sw_n, merge_entry_n_n_sw]
      | some cv =>
        by_cases h : av = cv
        · subst h
          rfl
        · rw [merge_entry.eq_def, merge_entry.eq_def]
          simp only [if_neg h, if_neg (fun hh => h (Eq.symm hh))]
          rfl
  | some bv =>
    cases y with
    | none =>
      cases z with
      | none => rfl
      | some cv =>
        rw [merge_entry.eq_def, merge_entry.eq_def]
    | some av =>
      cases z with
      | none =>
        rw [merge_entry.eq_def, merge_entry.eq_def]
      | some cv =>
        by_cases h1 : av = cv
        · subst h1
          rfl
        · by_cases h2 : av = bv
          · subst h2
            rw [merge_entry_svv_sw, merge_entry_sv_sw_sv]
          · by_cases h3 : cv = bv
            · subst h3
              rw [merge_entry_sv_sw_sv, merge_entry_svv_sw]
            · have hs := hsub bv av cv rfl rfl rfl
              rw [merge_entry.eq_def, merge_entry.eq_def]
              simp only [if_neg h1, if_neg h2, if_neg h3,
                if_neg (fun hh => h1 (Eq.symm hh))]
              have hcond : (cv.isObject && av.isObject && bv.isObject)
                  = (av.isObject && cv.isObject && bv.isObject) := by
                cases av.isObject <;> cases cv.isObject <;> cases bv.isObject <;> rfl
              rw [hcond]
              by_cases h4 : (av.isObject && cv.isObject && bv.isObject) = true
              · rw [if_pos h4, if_pos h4]
                cases hA : three_way_merge_recursive bv av cv with
                | none =>
                  cases hB : three_way_merge_recursive bv cv av with
                  | none => rfl
                  | some q =>
                    rw [hA, hB] at hs
                    simp at hs
                | some p =>
                  obtain ⟨v1, c1⟩ := p
                  cases hB : three_way_merge_recursive bv cv av with
                  | none =>
                    rw [hA, hB] at hs
                    simp at hs
                  | some q =>
                    obtain ⟨v2, c2⟩ := q
                    rw [hA, hB] at hs
                    simp at hs
                    simp [hs]
              · rw [if_neg h4, if_neg h4]
                rfl

theorem twmr_flag_symm_aux :
    ∀ n : Nat, ∀ base a b : Value, sizeOf base + sizeOf a + sizeOf b ≤ n →
      (three_way_merge_recursive base a b).map Prod.snd =
      (three_way_merge_recursive base b a).map Prod.snd := by
  intro n
  induction n with
  | zero =>
    intro base a b hle
    have := value_sizeOf_pos base
    omega
  | succ n ih =>
    intro base a b hle
    by_cases hobj : (base.isObject && a.isObject && b.isObject) = true
    · obtain ⟨bm, rfl⟩ : ∃ m, base = Value.obj m := by
        cases base <;> simp_all [Value.isObject]
      obtain ⟨am, rfl⟩ : ∃ m, a = Value.obj m := by
        cases a <;> simp_all [Value.isObject]
      obtain ⟨cm, rfl⟩ : ∃ m, b = Value.obj m := by
        cases b <;> simp_all [Value.isObject]
      rw [twmr_obj_closed, twmr_obj_closed]
      simp only [Option.map_some']
      rw [unionKeys_swap bm am cm]
      have hpt : ∀ k ∈ unionKeys bm am cm,
          entryConflict bm am cm k = entryConflict bm cm am k := by
        intro k _
        have hsym := merge_entry_flag_symm (mapGet bm k) (mapGet am k) (mapGet cm k) ?_
        · rw [entryConflict_eq_getD, entryConflict_eq_getD]
          unfold entryResolve
          rw [hsym]
        · intro bv av cv h1 h2 h3
          apply ih
          have s1 := sizeOf_mapGet_lt bm k bv h1
          have s2 := sizeOf_mapGet_lt am k av h2
          have s3 := sizeOf_mapGet_lt cm k cv h3
          simp at hle
          omega
      rw [any_congr_mem _ _ _ hpt]
    · have hobj2 : (base.isObject && b.isObject && a.isObject) = false := by
        cases hb1 : base.isObject <;> cases hb2 : a.isObject <;> cases hb3 : b.isObject <;>
          simp_all
      rw [twmr_leaf base a b (by simpa using hobj), twmr_leaf base b a hobj2]
      by_cases hab : a = b
      · subst hab
        rfl
      · by_cases habase : a = base
        · by_cases hbbase : b = base
          · exact absurd (by rw [habase, hbbase]) hab
          · simp only [if_neg hab, if_pos habase, if_neg (fun hh => hab (Eq.symm hh)),
              if_neg hbbase]
        · by_cases hbbase : b = base
          · simp only [if_neg hab, if_neg habase, if_pos hbbase,
              if_neg (fun hh => hab (Eq.symm hh))]
          · simp only [if_neg hab, if_neg habase, if_neg hbbase,
              if_neg (fun hh => hab (Eq.symm hh))]
            rfl

/-- **C9** (confirmed).  The conflict flag is symmetric in the two branches:
swapping branch A and branch B leaves the returned boolean unchanged (the
merged values may differ because branch A wins tie-breaks). -/
theorem c9_conflict_flag_symmetric (base a b : Value) :
    (three_way_merge base a b).map Prod.snd = (three_way_merge base b a).map Prod.snd := by
  unfold three_way_merge
  exact twmr_flag_symm_aux (sizeOf base + sizeOf a + sizeOf b) base a b (Nat.le_refl _)
